import Mathlib

/-!
Shallow embedding of the printipi firmware scheduler
(src/code/firmware/src/scheduler.cpp) and proofs about its
natural-language specification.

The only source file of the repository is `scheduler.cpp`.  The headers it
relies on (`scheduler.h`, `event.h`, `timeutil.h`) are not part of the
sources, so the value types they declare (`timespec` arithmetic, `Event`,
`PwmInfo`) are modelled from the spec, as marked on each definition.
Everything in `SchedState` and the operations on it is translated directly
from `scheduler.cpp`.
-/

namespace Printipi

/-- Modelled from the spec: `MonotonicTime` (the `struct timespec` of
`timeutil.h`, absent from the sources) as a normalized total-nanosecond
count; spec 4.1 explicitly allows "an equivalent 128-bit normalized
representation" of the 64-bit-seconds / 32-bit-nanoseconds pair. -/
abbrev MonotonicTime := Nat

/-- Modelled from the spec: `timespecLt` of `timeutil.h` (absent from the
sources), the strict comparison `a < b` of spec 4.1. -/
def timespecLt (a b : MonotonicTime) : Bool := a < b

/-- The two edge directions. `StepForward` is the legacy name of `Rise` and
`StepBackward` of `Fall` (spec glossary). -/
inductive StepDirection where
  | StepForward
  | StepBackward
deriving DecidableEq, Repr

/-- Modelled from the spec: the `Event` value object of `event.h` (absent
from the sources): a deadline on the monotonic clock, a channel id and a
direction. -/
structure Event where
  time : MonotonicTime
  stepperId : Nat
  direction : StepDirection
deriving DecidableEq, Repr

instance : Inhabited Event := ⟨⟨0, 0, .StepForward⟩⟩

/-- Modelled from the spec: `Event::offsetNano` of `event.h` (absent from
the sources) adds nanoseconds to the deadline (spec 4.1, `a + ns`). -/
def Event.offsetNano (e : Event) (ns : Nat) : Event :=
  { e with time := e.time + ns }

/-- Modelled from the spec: `a < b` on events iff `a.deadline < b.deadline`
(spec 3), the comparison `std::push_heap` would use. -/
def eventLt (a b : Event) : Bool := a.time < b.time

/-- Per-channel PWM duty parameters `(nsHigh, nsLow)` (spec 3). -/
structure PwmInfo where
  nsHigh : Nat
  nsLow : Nat
deriving DecidableEq, Repr

instance : Inhabited PwmInfo := ⟨⟨0, 0⟩⟩

/-- `std::deque::back` on the event queue: the most recently pushed
element (the queue is nonempty wherever the code calls it). -/
def back (l : List Event) : Event := l.getLastD default

/-- The sift-up pass of `std::push_heap` on the element at index `i`,
swapping it with its parent while the parent compares less. -/
def siftUp (a : Array Event) (i : Nat) : Array Event :=
  if h : i = 0 then a
  else
    let p := (i - 1) / 2
    if eventLt (a.getD p default) (a.getD i default) then
      siftUp ((a.setD p (a.getD i default)).setD i (a.getD p default)) p
    else a
termination_by i
decreasing_by
  exact Nat.lt_of_le_of_lt (Nat.div_le_self _ _)
    (Nat.sub_lt (Nat.pos_of_ne_zero h) Nat.one_pos)

/-- `std::push_heap(eventQueue.begin(), eventQueue.end())`: sift up the
last element of the sequence. -/
def pushHeap (l : List Event) : List Event :=
  (siftUp l.toArray (l.length - 1)).toList

/-- `Scheduler::orderedInsert` (scheduler.cpp lines 80-85): push `evt` to
the back, then re-heapify when `timespecLt(evt.time(), eventQueue.back().time())`.
After the `push_back`, `eventQueue.back()` is `evt` itself. -/
def orderedInsert (q : List Event) (evt : Event) : List Event :=
  let q2 := q ++ [evt]
  if timespecLt evt.time (back q2).time then pushHeap q2 else q2

/-- The scheduler state: the event queue (a `std::deque<Event>`), the
per-channel PWM table, the `_arePushesLocked` flag, whether the consumer
currently holds the mutex, and the backpressure threshold `bufferSize`.
The mutex and the condition variable are modelled by the `mutexHeld` flag
and by `nextEvent` returning `none` on an empty queue (the blocking wait). -/
structure SchedState where
  eventQueue : List Event
  pwmInfo : Nat → PwmInfo
  arePushesLocked : Bool
  mutexHeld : Bool
  bufferSize : Nat

/-- The `Scheduler` constructor (scheduler.cpp line 65): empty queue,
`_arePushesLocked(false)`, inactive PWM table, capacity from the header
(kept as a parameter, `SCHED_CAPACITY` is not in the sources). -/
def initialState (bufSize : Nat) : SchedState :=
  { eventQueue := []
    pwmInfo := fun _ => ⟨0, 0⟩
    arePushesLocked := false
    mutexHeld := false
    bufferSize := bufSize }

/-- `Scheduler::queue` (scheduler.cpp lines 70-78): under the mutex,
`orderedInsert` the event and notify the consumer.  The lock/notify pair
has no further sequential content. -/
def SchedState.queue (s : SchedState) (evt : Event) : SchedState :=
  { s with eventQueue := orderedInsert s.eventQueue evt }

/-- `Scheduler::schedPwm` (scheduler.cpp lines 87-97): if the channel is
already active (`nsHigh != 0 && nsLow != 0`) just overwrite the entry;
otherwise overwrite and queue the seed event `(timespecNow(), idx,
StepForward)`.  `timespecNow()` is passed in as `now`. -/
def SchedState.schedPwm (s : SchedState) (now : MonotonicTime) (idx : Nat)
    (p : PwmInfo) : SchedState :=
  if (s.pwmInfo idx).nsHigh ≠ 0 ∧ (s.pwmInfo idx).nsLow ≠ 0 then
    { s with pwmInfo := Function.update s.pwmInfo idx p }
  else
    SchedState.queue { s with pwmInfo := Function.update s.pwmInfo idx p }
      ⟨now, idx, .StepForward⟩

/-- `nextEvent` lines 102-104: lock the mutex unless `_arePushesLocked`
already holds it from the previous iteration. -/
def acquireIfNeeded (s : SchedState) : SchedState :=
  if s.arePushesLocked then s else { s with mutexHeld := true }

/-- `nextEvent` lines 111-123: after popping `evt`, insert the
complementary PWM edge when the opposite half-period of its channel is
non-zero. -/
def regenerate (s : SchedState) (evt : Event) : SchedState :=
  match evt.direction with
  | .StepForward =>
    if (s.pwmInfo evt.stepperId).nsHigh ≠ 0 then
      let nextPwm := Event.offsetNano ⟨evt.time, evt.stepperId, .StepBackward⟩
        (s.pwmInfo evt.stepperId).nsHigh
      { s with eventQueue := orderedInsert s.eventQueue nextPwm }
    else s
  | .StepBackward =>
    if (s.pwmInfo evt.stepperId).nsLow ≠ 0 then
      let nextPwm := Event.offsetNano ⟨evt.time, evt.stepperId, .StepForward⟩
        (s.pwmInfo evt.stepperId).nsLow
      { s with eventQueue := orderedInsert s.eventQueue nextPwm }
    else s

/-- `nextEvent` lines 124-129: if the queue is underfilled release the
mutex and clear `_arePushesLocked`; otherwise keep the mutex held with
`_arePushesLocked` set. -/
def releaseIfUnderfilled (s : SchedState) : SchedState :=
  if s.eventQueue.length < s.bufferSize then
    { s with mutexHeld := false, arePushesLocked := false }
  else
    { s with arePushesLocked := true }

/-- `Scheduler::nextEvent` (scheduler.cpp lines 100-139): acquire the
mutex if needed, block while the queue is empty (modelled by `none`),
pop the front event, regenerate the paired PWM edge, decide backpressure,
sleep until the deadline (no sequential content) and return the event. -/
def SchedState.nextEvent (s : SchedState) : Option (Event × SchedState) :=
  let s1 := acquireIfNeeded s
  match s1.eventQueue with
  | [] => none
  | evt :: rest =>
    some (evt, releaseIfUnderfilled (regenerate { s1 with eventQueue := rest } evt))

/-- `Scheduler::lastSchedTime` (scheduler.cpp lines 149-163): under the
mutex, the deadline of `eventQueue.back()` when the queue is nonempty,
otherwise the current monotonic time (`clock_gettime`, passed in as
`now`). -/
def SchedState.lastSchedTime (s : SchedState) (now : MonotonicTime) : MonotonicTime :=
  if s.eventQueue.isEmpty then now else (back s.eventQueue).time

/-- `Scheduler::setBufferSize` (scheduler.cpp lines 165-167). -/
def SchedState.setBufferSize (s : SchedState) (size : Nat) : SchedState :=
  { s with bufferSize := size }

/-- The consumer loop: `n` successive `nextEvent` calls, collecting the
returned events; stops when the queue is empty (where the real consumer
would block). -/
def drain : Nat → SchedState → List Event
  | 0, _ => []
  | n + 1, s =>
    match s.nextEvent with
    | none => []
    | some (e, s2) => e :: drain n s2

/-- A scheduler built by a sequence of `queue` calls on a fresh instance. -/
def stateFromQueue (l : List Event) (bufSize : Nat) : SchedState :=
  l.foldl SchedState.queue (initialState bufSize)

/-- The exit-handler registry of `Scheduler` (scheduler.cpp lines 11-12):
one insertion-ordered handler list per level (levels in ascending order;
handlers identified by `Nat` tags), and the atomic `isExiting` flag.
The list length plays `SCHED_NUM_EXIT_HANDLER_LEVELS = exitHandlers.size()`. -/
structure ExitState where
  exitHandlers : List (List Nat)
  isExiting : Bool
deriving DecidableEq, Repr

/-- `Scheduler::callExitHandlers` (scheduler.cpp lines 25-34):
`isExiting.exchange(true)`; when it was previously false, run every
handler of every level in order.  Returns the sequence of handlers run
together with the new state. -/
def callExitHandlers (s : ExitState) : List Nat × ExitState :=
  if s.isExiting then ([], s)
  else (s.exitHandlers.flatten, { s with isExiting := true })

/-- `Scheduler::registerExitHandler` (scheduler.cpp lines 56-62): throw
when `level > exitHandlers.size()`; otherwise `exitHandlers[level].push_back
(handler)`.  At `level = exitHandlers.size()` the guard admits the call but
the array access is out of bounds: undefined behavior, modelled as
`.ok none`. -/
def registerExitHandler (s : ExitState) (handler : Nat) (level : Nat) :
    Except String (Option ExitState) :=
  if level > s.exitHandlers.length then
    .error "Tried to register an exit handler at too high of a level"
  else if h : level < s.exitHandlers.length then
    .ok (some { s with exitHandlers :=
      s.exitHandlers.set level (s.exitHandlers.get ⟨level, h⟩ ++ [handler]) })
  else
    .ok none

/-- `Scheduler::initSchedThread` (scheduler.cpp lines 141-147): elevate the
calling thread to SCHED_FIFO; the OS result `ret` of
`pthread_setschedparam` is an input.  When `ret` is non-zero the code only
logs a warning; the `Except` codomain records that no path throws. -/
def initSchedThread (ret : Int) : Except String (List String) :=
  if ret ≠ 0 then
    .ok ["Warning: pthread_setschedparam returned non-zero"]
  else
    .ok []

/-- A concrete scheduler state with one pending rising edge on channel 2
and an active PWM entry for that channel. -/
def sC2 : SchedState :=
  { eventQueue := [⟨100, 2, .StepForward⟩]
    pwmInfo := fun c => if c = 2 then ⟨50, 60⟩ else ⟨0, 0⟩
    arePushesLocked := false
    mutexHeld := false
    bufferSize := 4 }

/-- The state `sC2.nextEvent` leaves behind: the popped rising edge has
been replaced by its falling edge at deadline `100 + 50`. -/
def sC2out : SchedState :=
  { eventQueue := [⟨150, 2, .StepBackward⟩]
    pwmInfo := fun c => if c = 2 then ⟨50, 60⟩ else ⟨0, 0⟩
    arePushesLocked := false
    mutexHeld := false
    bufferSize := 4 }

/-- A concrete scheduler state with one pending event and no active PWM. -/
def sC6 : SchedState := stateFromQueue [⟨5, 0, .StepForward⟩] 4

/-- The state `sC6.nextEvent` leaves behind: queue empty and underfilled,
so the mutex is released and `_arePushesLocked` cleared. -/
def sC6out : SchedState :=
  { eventQueue := []
    pwmInfo := fun _ => ⟨0, 0⟩
    arePushesLocked := false
    mutexHeld := false
    bufferSize := 4 }

/-! ### Basic facts about the embedded operations -/

theorem back_append (q : List Event) (evt : Event) : back (q ++ [evt]) = evt :=
  List.getLastD_concat _ _ _

/-- After the `push_back`, `eventQueue.back()` is the pushed event itself, so
the guard of `orderedInsert` compares `evt.time()` with itself and the
re-heapify branch never runs: `orderedInsert` is a plain append. -/
theorem orderedInsert_append (q : List Event) (evt : Event) :
    orderedInsert q evt = q ++ [evt] := by
  simp [orderedInsert, back_append, timespecLt]

@[simp] theorem acquireIfNeeded_eventQueue (s : SchedState) :
    (acquireIfNeeded s).eventQueue = s.eventQueue := by
  unfold acquireIfNeeded; split <;> rfl

@[simp] theorem acquireIfNeeded_pwmInfo (s : SchedState) :
    (acquireIfNeeded s).pwmInfo = s.pwmInfo := by
  unfold acquireIfNeeded; split <;> rfl

@[simp] theorem acquireIfNeeded_bufferSize (s : SchedState) :
    (acquireIfNeeded s).bufferSize = s.bufferSize := by
  unfold acquireIfNeeded; split <;> rfl

@[simp] theorem acquireIfNeeded_arePushesLocked (s : SchedState) :
    (acquireIfNeeded s).arePushesLocked = s.arePushesLocked := by
  unfold acquireIfNeeded; split <;> rfl

@[simp] theorem releaseIfUnderfilled_eventQueue (s : SchedState) :
    (releaseIfUnderfilled s).eventQueue = s.eventQueue := by
  unfold releaseIfUnderfilled; split <;> rfl

@[simp] theorem releaseIfUnderfilled_pwmInfo (s : SchedState) :
    (releaseIfUnderfilled s).pwmInfo = s.pwmInfo := by
  unfold releaseIfUnderfilled; split <;> rfl

@[simp] theorem releaseIfUnderfilled_bufferSize (s : SchedState) :
    (releaseIfUnderfilled s).bufferSize = s.bufferSize := by
  unfold releaseIfUnderfilled; split <;> rfl

@[simp] theorem regenerate_pwmInfo (s : SchedState) (evt : Event) :
    (regenerate s evt).pwmInfo = s.pwmInfo := by
  rcases evt with ⟨t, c, d⟩
  cases d <;> simp only [regenerate] <;> split_ifs <;> rfl

@[simp] theorem regenerate_bufferSize (s : SchedState) (evt : Event) :
    (regenerate s evt).bufferSize = s.bufferSize := by
  rcases evt with ⟨t, c, d⟩
  cases d <;> simp only [regenerate] <;> split_ifs <;> rfl

@[simp] theorem regenerate_arePushesLocked (s : SchedState) (evt : Event) :
    (regenerate s evt).arePushesLocked = s.arePushesLocked := by
  rcases evt with ⟨t, c, d⟩
  cases d <;> simp only [regenerate] <;> split_ifs <;> rfl

@[simp] theorem regenerate_mutexHeld (s : SchedState) (evt : Event) :
    (regenerate s evt).mutexHeld = s.mutexHeld := by
  rcases evt with ⟨t, c, d⟩
  cases d <;> simp only [regenerate] <;> split_ifs <;> rfl

/-- The event queue after the regeneration step of `nextEvent`. -/
theorem regenerate_eventQueue (s : SchedState) (evt : Event) :
    (regenerate s evt).eventQueue =
      (match evt.direction with
       | .StepForward =>
         if (s.pwmInfo evt.stepperId).nsHigh ≠ 0 then
           s.eventQueue ++
             [⟨evt.time + (s.pwmInfo evt.stepperId).nsHigh, evt.stepperId, .StepBackward⟩]
         else s.eventQueue
       | .StepBackward =>
         if (s.pwmInfo evt.stepperId).nsLow ≠ 0 then
           s.eventQueue ++
             [⟨evt.time + (s.pwmInfo evt.stepperId).nsLow, evt.stepperId, .StepForward⟩]
         else s.eventQueue) := by
  rcases evt with ⟨t, c, d⟩
  cases d <;> simp only [regenerate] <;> split_ifs <;>
    simp_all [orderedInsert_append, Event.offsetNano]

/-- On a channel whose PWM entry is inactive, regeneration does nothing. -/
theorem regenerate_inactive (s : SchedState) (evt : Event)
    (h : s.pwmInfo evt.stepperId = ⟨0, 0⟩) : regenerate s evt = s := by
  rcases evt with ⟨t, c, d⟩
  cases d <;> simp [regenerate, h]

@[simp] theorem queue_eventQueue (s : SchedState) (evt : Event) :
    (s.queue evt).eventQueue = s.eventQueue ++ [evt] := by
  simp [SchedState.queue, orderedInsert_append]

theorem foldl_queue (l : List Event) : ∀ s : SchedState,
    l.foldl SchedState.queue s = { s with eventQueue := s.eventQueue ++ l } := by
  induction l with
  | nil => intro s; simp
  | cons a t ih =>
    intro s
    rw [List.foldl_cons, ih]
    simp [SchedState.queue, orderedInsert_append]

@[simp] theorem stateFromQueue_eventQueue (l : List Event) (b : Nat) :
    (stateFromQueue l b).eventQueue = l := by
  simp [stateFromQueue, foldl_queue, initialState]

@[simp] theorem stateFromQueue_pwmInfo (l : List Event) (b : Nat) :
    (stateFromQueue l b).pwmInfo = fun _ => ⟨0, 0⟩ := by
  simp [stateFromQueue, foldl_queue, initialState]

@[simp] theorem stateFromQueue_bufferSize (l : List Event) (b : Nat) :
    (stateFromQueue l b).bufferSize = b := by
  simp [stateFromQueue, foldl_queue, initialState]

theorem nextEvent_eq_nil (s : SchedState) (h : s.eventQueue = []) :
    s.nextEvent = none := by
  simp only [SchedState.nextEvent]
  rw [acquireIfNeeded_eventQueue, h]

theorem nextEvent_eq_cons (s : SchedState) (e : Event) (rest : List Event)
    (h : s.eventQueue = e :: rest) :
    s.nextEvent =
      some (e, releaseIfUnderfilled
        (regenerate { acquireIfNeeded s with eventQueue := rest } e)) := by
  simp only [SchedState.nextEvent]
  rw [acquireIfNeeded_eventQueue, h]

/-- When every PWM entry is inactive, the regeneration step never fires and
draining the scheduler returns exactly the stored queue. -/
theorem drain_of_inactive : ∀ (n : Nat) (s : SchedState),
    s.pwmInfo = (fun _ => (⟨0, 0⟩ : PwmInfo)) → s.eventQueue.length = n →
    drain n s = s.eventQueue := by
  intro n
  induction n with
  | zero =>
    intro s hp hl
    rw [List.length_eq_zero] at hl
    simp [drain, hl]
  | succ n ih =>
    intro s hp hl
    cases hq : s.eventQueue with
    | nil => rw [hq] at hl; simp at hl
    | cons e rest =>
      have hrest : rest.length = n := by rw [hq] at hl; simpa using hl
      have hpop := nextEvent_eq_cons s e rest hq
      have hq2 : (releaseIfUnderfilled
          (regenerate { acquireIfNeeded s with eventQueue := rest } e)).eventQueue
            = rest := by
        rw [releaseIfUnderfilled_eventQueue]
        rw [regenerate_inactive _ _ (by simp [hp])]
      have hp2 : (releaseIfUnderfilled
          (regenerate { acquireIfNeeded s with eventQueue := rest } e)).pwmInfo
            = (fun _ => (⟨0, 0⟩ : PwmInfo)) := by
        rw [releaseIfUnderfilled_pwmInfo, regenerate_pwmInfo]
        simpa using hp
      simp only [drain, hpop]
      rw [ih _ hp2 (by rw [hq2]; exact hrest), hq2]

/-- `getLastD` commutes with `map` on a nonempty list. -/
theorem map_getLastD (f : Event → Nat) : ∀ (l : List Event) (d : Event) (a : Nat),
    l ≠ [] → (l.map f).getLastD a = f (l.getLastD d) := by
  intro l
  induction l with
  | nil => intro d a h; exact absurd rfl h
  | cons x t ih =>
    intro d a _
    cases t with
    | nil => rfl
    | cons y t2 => simpa using ih x (f x) (by simp)

/-! ### The claims -/

/-- C1: the claim says successive `nextEvent()` results are non-decreasing
in deadline (each pop returns a minimum-deadline element).  The code
violates it: `orderedInsert`'s heapify guard compares the pushed event
with itself, so the queue stays in insertion order and popping the front
returns events in insertion order.  Queueing deadlines 30 then 10 makes
`nextEvent` return 30 before 10. -/
theorem nextEvent_out_of_order_failing_input :
    (drain 2 (stateFromQueue [⟨30, 1, .StepForward⟩, ⟨10, 2, .StepForward⟩] 4)).map
        Event.time = [30, 10] ∧
    ¬ ((drain 2 (stateFromQueue [⟨30, 1, .StepForward⟩, ⟨10, 2, .StepForward⟩] 4)).map
        Event.time).Chain' (· ≤ ·) := by
  constructor
  · rfl
  · rw [show (drain 2 (stateFromQueue [⟨30, 1, .StepForward⟩, ⟨10, 2, .StepForward⟩] 4)).map
        Event.time = [30, 10] from rfl]
    simp [List.chain'_cons]

/-- C2: after `nextEvent` pops `e`, the complementary PWM edge is in the
resulting queue exactly when the opposite half-period of `e`'s channel is
non-zero: a popped `StepForward` with `nsHigh > 0` leaves
`(e.time + nsHigh, e.stepperId, StepBackward)` appended, a popped
`StepBackward` with `nsLow > 0` leaves the symmetric rise, and a zero
half-period leaves the queue as just the popped tail.  The insertion is
already in the state paired with the returned event, i.e. it happens
before `nextEvent` returns. -/
theorem nextEvent_regenerates_complement (s : SchedState) (e : Event) (s' : SchedState)
    (h : s.nextEvent = some (e, s')) :
    s'.eventQueue =
      (match e.direction with
       | .StepForward =>
         if (s.pwmInfo e.stepperId).nsHigh ≠ 0 then
           s.eventQueue.tail ++
             [⟨e.time + (s.pwmInfo e.stepperId).nsHigh, e.stepperId, .StepBackward⟩]
         else s.eventQueue.tail
       | .StepBackward =>
         if (s.pwmInfo e.stepperId).nsLow ≠ 0 then
           s.eventQueue.tail ++
             [⟨e.time + (s.pwmInfo e.stepperId).nsLow, e.stepperId, .StepForward⟩]
         else s.eventQueue.tail) := by
  cases hq : s.eventQueue with
  | nil => rw [nextEvent_eq_nil s hq] at h; exact absurd h (by simp)
  | cons e0 rest =>
    rw [nextEvent_eq_cons s e0 rest hq] at h
    simp only [Option.some.injEq, Prod.mk.injEq] at h
    obtain ⟨he, hs⟩ := h
    subst he
    rw [← hs, releaseIfUnderfilled_eventQueue, regenerate_eventQueue]
    rcases e0 with ⟨t, c, d⟩
    cases d <;> simp [hq]

theorem nextEvent_regenerates_complement_witness :
    sC2out.eventQueue =
      (match (⟨100, 2, .StepForward⟩ : Event).direction with
       | .StepForward =>
         if (sC2.pwmInfo 2).nsHigh ≠ 0 then
           sC2.eventQueue.tail ++ [⟨100 + (sC2.pwmInfo 2).nsHigh, 2, .StepBackward⟩]
         else sC2.eventQueue.tail
       | .StepBackward =>
         if (sC2.pwmInfo 2).nsLow ≠ 0 then
           sC2.eventQueue.tail ++ [⟨100 + (sC2.pwmInfo 2).nsLow, 2, .StepForward⟩]
         else sC2.eventQueue.tail) :=
  nextEvent_regenerates_complement sC2 ⟨100, 2, .StepForward⟩ sC2out rfl

/-- C3: `schedPwm idx p` always overwrites `pwmInfo[idx]` with `p`; when
the channel was already active (both stored half-periods non-zero) the
queue is unchanged, otherwise exactly the seed event
`(now, idx, StepForward)` is appended. -/
theorem schedPwm_overwrite_and_seed (s : SchedState) (now : MonotonicTime)
    (idx : Nat) (p : PwmInfo) :
    (s.schedPwm now idx p).pwmInfo idx = p ∧
    (s.schedPwm now idx p).eventQueue =
      (if (s.pwmInfo idx).nsHigh ≠ 0 ∧ (s.pwmInfo idx).nsLow ≠ 0 then s.eventQueue
       else s.eventQueue ++ [⟨now, idx, .StepForward⟩]) := by
  by_cases hc : (s.pwmInfo idx).nsHigh ≠ 0 ∧ (s.pwmInfo idx).nsLow ≠ 0
  · simp [SchedState.schedPwm, hc, Function.update_same]
  · simp [SchedState.schedPwm, hc, Function.update_same, SchedState.queue,
      orderedInsert_append]

/-- C4: when `isExiting` is still false, `callExitHandlers` runs every
registered handler once, levels in ascending order and handlers within a
level in registration order (`flatten` of the level lists), and sets the
flag; any call on a state whose flag is already set runs nothing and
changes nothing, so a second call after the first is a no-op. -/
theorem callExitHandlers_at_most_once (s s2 : ExitState)
    (h : s.isExiting = false) (h2 : s2.isExiting = true) :
    (callExitHandlers s).1 = s.exitHandlers.flatten ∧
    (callExitHandlers s).2.isExiting = true ∧
    (callExitHandlers (callExitHandlers s).2).1 = [] ∧
    callExitHandlers s2 = ([], s2) := by
  simp [callExitHandlers, h, h2]

theorem callExitHandlers_at_most_once_witness :
    (callExitHandlers ⟨[[1, 2], [3]], false⟩).1 = ([[1, 2], [3]] : List (List Nat)).flatten ∧
    (callExitHandlers ⟨[[1, 2], [3]], false⟩).2.isExiting = true ∧
    (callExitHandlers (callExitHandlers ⟨[[1, 2], [3]], false⟩).2).1 = [] ∧
    callExitHandlers ⟨[[4]], true⟩ = ([], ⟨[[4]], true⟩) :=
  callExitHandlers_at_most_once ⟨[[1, 2], [3]], false⟩ ⟨[[4]], true⟩ rfl rfl

/-- C5: the claim says `registerExitHandler` throws iff the level is out of
range `[0, L)`.  The code's guard is `level > exitHandlers.size()`, so the
boundary `level = L` (here `L = 3`) is admitted and the subsequent
`exitHandlers[level]` access is out of bounds (modelled `.ok none`)
instead of throwing; `level = L + 1` does throw and an in-range level
appends the handler. -/
theorem registerExitHandler_off_by_one :
    registerExitHandler ⟨[[], [], []], false⟩ 7 3 = .ok none ∧
    registerExitHandler ⟨[[], [], []], false⟩ 7 4 =
      .error "Tried to register an exit handler at too high of a level" ∧
    registerExitHandler ⟨[[], [], []], false⟩ 7 1 = .ok (some ⟨[[], [7], []], false⟩) :=
  ⟨rfl, rfl, rfl⟩

/-- C6: assuming the consumer-side invariant that the mutex is held exactly
when `_arePushesLocked` is set, a completed `nextEvent` call reestablishes
it, and the mutex is released with the flag cleared iff the remaining
queue is strictly below `bufferSize`; moreover the initial acquire step is
a no-op exactly when `_arePushesLocked` was already set. -/
theorem nextEvent_backpressure (s : SchedState) (e : Event) (s' : SchedState)
    (hinv : s.mutexHeld = s.arePushesLocked)
    (h : s.nextEvent = some (e, s')) :
    s'.bufferSize = s.bufferSize ∧
    s'.mutexHeld = s'.arePushesLocked ∧
    ((s'.arePushesLocked = false ∧ s'.mutexHeld = false) ↔
      s'.eventQueue.length < s.bufferSize) ∧
    (acquireIfNeeded s = s ↔ s.arePushesLocked = true) := by
  have hacq : acquireIfNeeded s = s ↔ s.arePushesLocked = true := by
    constructor
    · intro heq
      by_contra hb
      have hb' : s.arePushesLocked = false := by
        cases hfl : s.arePushesLocked
        · rfl
        · exact absurd hfl hb
      have : (acquireIfNeeded s).mutexHeld = true := by
        simp [acquireIfNeeded, hb']
      rw [heq, hinv, hb'] at this
      exact Bool.false_ne_true this
    · intro hb; simp [acquireIfNeeded, hb]
  cases hq : s.eventQueue with
  | nil => rw [nextEvent_eq_nil s hq] at h; exact absurd h (by simp)
  | cons e0 rest =>
    rw [nextEvent_eq_cons s e0 rest hq] at h
    simp only [Option.some.injEq, Prod.mk.injEq] at h
    obtain ⟨he, hs⟩ := h
    have hheld : (regenerate { acquireIfNeeded s with eventQueue := rest } e0).mutexHeld
        = true := by
      rw [regenerate_mutexHeld]
      show (acquireIfNeeded s).mutexHeld = true
      cases hfl : s.arePushesLocked <;> simp [acquireIfNeeded, hfl, hinv ▸ hfl]
    have hbuf : (regenerate { acquireIfNeeded s with eventQueue := rest } e0).bufferSize
        = s.bufferSize := by
      rw [regenerate_bufferSize]
      show (acquireIfNeeded s).bufferSize = s.bufferSize
      exact acquireIfNeeded_bufferSize s
    rw [← hs]
    refine ⟨?_, ?_, ?_, hacq⟩ <;>
      unfold releaseIfUnderfilled <;>
      rw [hbuf] <;>
      split_ifs with hlen <;>
      simp_all

theorem nextEvent_backpressure_witness :
    sC6out.bufferSize = sC6.bufferSize ∧
    sC6out.mutexHeld = sC6out.arePushesLocked ∧
    ((sC6out.arePushesLocked = false ∧ sC6out.mutexHeld = false) ↔
      sC6out.eventQueue.length < sC6.bufferSize) ∧
    (acquireIfNeeded sC6 = sC6 ↔ sC6.arePushesLocked = true) :=
  nextEvent_backpressure sC6 ⟨5, 0, .StepForward⟩ sC6out rfl rfl

/-- C7 counterexample: the claim says `lastSchedTime` returns the largest
deadline in a nonempty queue.  After queueing deadlines 30 then 10 the
queue still holds the deadline-30 event, yet `lastSchedTime` returns 10 —
the most recently inserted deadline, not the largest. -/
theorem lastSchedTime_not_max_counterexample :
    (stateFromQueue [⟨30, 1, .StepForward⟩, ⟨10, 2, .StepForward⟩] 4).lastSchedTime 0
      = 10 ∧
    ((stateFromQueue [⟨30, 1, .StepForward⟩, ⟨10, 2, .StepForward⟩] 4).eventQueue.map
      Event.time) = [30, 10] :=
  ⟨rfl, rfl⟩

/-- C7 amended: for any sequence of `queue` calls, `lastSchedTime` returns
the deadline of the most recently inserted event when the queue is
nonempty (which need not be the largest deadline), and `now()` when it is
empty. -/
theorem lastSchedTime_returns_last_queued (now : MonotonicTime) (b : Nat)
    (l : List Event) :
    (stateFromQueue l b).lastSchedTime now = (l.map Event.time).getLastD now := by
  unfold SchedState.lastSchedTime
  rw [stateFromQueue_eventQueue]
  by_cases h : l = []
  · simp [h]
  · rw [if_neg (by simpa using h), back,
      map_getLastD Event.time l default now h]

/-- C8: ties between equal deadlines are broken FIFO: with inactive PWM,
draining a scheduler built by queueing `l` returns exactly `l`, so an
event inserted at position `i` with the same deadline as a later one at
position `j > i` is returned earlier (at output position `i`). -/
theorem nextEvent_fifo_on_equal_deadlines (l : List Event) (b : Nat) (i j : Nat)
    (hij : i < j) (hj : j < l.length)
    (_htie : (l.get ⟨i, Nat.lt_trans hij hj⟩).time = (l.get ⟨j, hj⟩).time) :
    drain l.length (stateFromQueue l b) = l ∧
    (drain l.length (stateFromQueue l b)).get? i =
      some (l.get ⟨i, Nat.lt_trans hij hj⟩) ∧
    (drain l.length (stateFromQueue l b)).get? j = some (l.get ⟨j, hj⟩) := by
  have hd : drain l.length (stateFromQueue l b) = l := by
    have h1 := drain_of_inactive l.length (stateFromQueue l b)
      (stateFromQueue_pwmInfo l b) (by simp)
    rwa [stateFromQueue_eventQueue] at h1
  refine ⟨hd, ?_, ?_⟩ <;> rw [hd]
  · exact List.get?_eq_get (Nat.lt_trans hij hj)
  · exact List.get?_eq_get hj

theorem nextEvent_fifo_witness :
    drain 2 (stateFromQueue [⟨5, 0, .StepForward⟩, ⟨5, 1, .StepForward⟩] 4) =
      [⟨5, 0, .StepForward⟩, ⟨5, 1, .StepForward⟩] ∧
    (drain 2 (stateFromQueue [⟨5, 0, .StepForward⟩, ⟨5, 1, .StepForward⟩] 4)).get? 0 =
      some (([⟨5, 0, .StepForward⟩, ⟨5, 1, .StepForward⟩] : List Event).get ⟨0, by decide⟩) ∧
    (drain 2 (stateFromQueue [⟨5, 0, .StepForward⟩, ⟨5, 1, .StepForward⟩] 4)).get? 1 =
      some (([⟨5, 0, .StepForward⟩, ⟨5, 1, .StepForward⟩] : List Event).get ⟨1, by decide⟩) :=
  nextEvent_fifo_on_equal_deadlines [⟨5, 0, .StepForward⟩, ⟨5, 1, .StepForward⟩] 4 0 1
    (by decide) (by decide) rfl

/-- C9: `orderedInsert` always appends at the back and never reorders: its
heapify guard compares the freshly pushed event's time with
`eventQueue.back().time()`, which is the event itself, and the strict
comparison on equal times is false, so the branch is unreachable and the
queue stays in pure insertion order. -/
theorem orderedInsert_never_reheapifies (q : List Event) (evt : Event) :
    timespecLt evt.time (back (q ++ [evt])).time = false ∧
    orderedInsert q evt = q ++ [evt] :=
  ⟨by simp [timespecLt, back_append], orderedInsert_append q evt⟩

/-- C10: `initSchedThread` terminates normally for every result of the
priority-elevation call: it never throws, and it logs a warning exactly
when `pthread_setschedparam` returned non-zero. -/
theorem initSchedThread_never_fails (ret : Int) :
    ∃ logs, initSchedThread ret = Except.ok logs ∧ (logs = [] ↔ ret = 0) := by
  by_cases h : ret = 0
  · exact ⟨[], by simp [initSchedThread, h]⟩
  · exact ⟨["Warning: pthread_setschedparam returned non-zero"],
      by simp [initSchedThread, h]⟩

end Printipi
